import Mathlib

/-!
Verification of the `pack` Cloud Native Buildpacks client: a shallow
embedding of its image-handle model (`image/local.go`), build-flag
resolution (`build.go`), run-image selection (`config/config.go`) and
builder assembly (`create_builder.go`), with theorems settling the
specification claims about these components.
-/

set_option maxHeartbeats 1000000

/-- A single quote character, used inside error messages. -/
def quoteStr : String := String.singleton (Char.ofNat 39)

/-- Association-list lookup with a default, mirroring a Go map read
(`labels[key]` yields the zero value when the key is absent). -/
def lookupD {α β : Type} [DecidableEq α] : List (α × β) → α → β → β
  | [], _, d => d
  | (k0, v0) :: rest, k, d => if k0 = k then v0 else lookupD rest k d

/-- Association-list update, mirroring a Go map assignment
(`m[key] = val`): replace the binding when present, append otherwise. -/
def updateAssoc {α β : Type} [DecidableEq α] : List (α × β) → α → β → List (α × β)
  | [], k, v => [(k, v)]
  | (k0, v0) :: rest, k, v =>
    if k0 = k then (k0, v) :: rest else (k0, v0) :: updateAssoc rest k v

/-- The inspected snapshot of an image, the part of Docker's
`types.ImageInspect` the handle uses: `Config` (nil when the image does
not exist; otherwise it carries the label map) and `RootFS.Layers`. -/
structure ImageInspect where
  config : Option (List (String × String))
  layers : List String
deriving DecidableEq

/-- The zero value of `types.ImageInspect`: what `NewLocal` keeps when
`ImageInspectWithRaw` reports not-found. -/
def emptyInspect : ImageInspect := { config := none, layers := [] }

/-- The `local` image handle of `image/local.go`: repo name, inspect
snapshot, and the parallel `layerPaths` list. -/
structure LocalImage where
  RepoName : String
  Inspect : ImageInspect
  layerPaths : List String
deriving DecidableEq

/-- `Factory.NewLocal`: inspect the image (tolerating not-found, which
leaves the zero-value inspect) and initialise `layerPaths` with
`make([]string, len(inspect.RootFS.Layers))`. -/
def NewLocal (repoName : String) (inspected : Option ImageInspect) : LocalImage :=
  { RepoName := repoName
  , Inspect := inspected.getD emptyInspect
  , layerPaths := List.replicate (inspected.getD emptyInspect).layers.length "" }

/-- `local.Label`: error when `Inspect.Config` is nil, otherwise the Go
map read `labels[key]` (empty string when the key is absent). -/
def Label (l : LocalImage) (key : String) : Except String String :=
  match l.Inspect.config with
  | none =>
    Except.error ("failed to get label, image " ++ quoteStr ++ l.RepoName ++ quoteStr ++ " does not exist")
  | some labels => Except.ok (lookupD labels key "")

/-- `local.SetLabel`: error when `Inspect.Config` is nil, otherwise the
in-memory map assignment `l.Inspect.Config.Labels[key] = val`. -/
def SetLabel (l : LocalImage) (key val : String) : Except String LocalImage :=
  match l.Inspect.config with
  | none =>
    Except.error ("failed to set label, image " ++ quoteStr ++ l.RepoName ++ quoteStr ++ " does not exist")
  | some labels =>
    Except.ok { l with Inspect := { l.Inspect with config := some (updateAssoc labels key val) } }

/-- `local.TopLayer`: reads `all[len(all)-1]` with no emptiness check;
the out-of-range access on an empty layer list (a Go panic) is modelled
as `none`. -/
def TopLayer (l : LocalImage) : Option String :=
  l.Inspect.layers.get? (l.Inspect.layers.length - 1)

/-- `local.AddLayer`: append `"sha256:" ++ sha` (the hex digest of the
tar at `path`, supplied here as a parameter since hashing the file is
I/O) to `Inspect.RootFS.Layers` and `path` to `layerPaths`. -/
def AddLayer (l : LocalImage) (path sha : String) : LocalImage :=
  { l with
    Inspect := { l.Inspect with layers := l.Inspect.layers ++ ["sha256:" ++ sha] }
  , layerPaths := l.layerPaths ++ [path] }

/-- The invariant of the spec: `len(layer_paths) == len(inspect.root_fs.layers)`. -/
def layerInvariant (l : LocalImage) : Prop :=
  l.layerPaths.length = l.Inspect.layers.length

instance (l : LocalImage) : Decidable (layerInvariant l) := by
  unfold layerInvariant; infer_instance

/-- Go `strings.SplitN(s, sep, 2)` on a character list, as the pair
(before the first separator, after it); `none` when the separator is
absent (the Go call then returns a single-element slice). -/
def splitFirst (sep : Char) : List Char → Option (List Char × List Char)
  | [] => none
  | c :: cs =>
    if c = sep then some ([], cs)
    else
      match splitFirst sep cs with
      | some p => some (c :: p.1, p.2)
      | none => none

/-- Go `strings.Split(s, "\n")` on a character list. -/
def splitLines : List Char → List (List Char)
  | [] => [[]]
  | c :: cs =>
    let r := splitLines cs
    if c = '\n' then [] :: r
    else
      match r with
      | [] => [[c]]
      | l :: ls => (c :: l) :: ls

/-- The whitespace predicate of Go `strings.TrimSpace` (ASCII part). -/
def isSpaceChar (c : Char) : Bool :=
  c == ' ' || c == '\t' || c == '\n' || c == '\x0b' || c == '\x0c' || c == '\r'

/-- Go `strings.TrimSpace` on a character list. -/
def trimSpace (l : List Char) : List Char :=
  ((l.dropWhile isSpaceChar).reverse.dropWhile isSpaceChar).reverse

/-- `parseEnvFile` of `build.go`: split the file on newlines, trim each
line, skip empty lines, split each remaining line on the first `=`
(`KEY=VALUE` sets the key; a bare key reads `os.Getenv`). The process
environment is the `osEnv` parameter. -/
def parseEnvFile (osEnv : List Char → List Char) (content : List Char) :
    List (List Char × List Char) :=
  (splitLines content).foldl
    (fun out line =>
      let l := trimSpace line
      if l = [] then out
      else
        match splitFirst '=' l with
        | some p => updateAssoc out p.1 p.2
        | none => updateAssoc out l (osEnv l))
    []

/-- The env-file map as the specification words it, to be compared with
`parseEnvFile`: each non-empty line of the form KEY=VALUE maps KEY to
VALUE, each non-empty line without an equals sign maps the key to the
process environment value, and empty lines contribute nothing. -/
def envFileMapSpec (osEnv : List Char → List Char) (content : List Char) :
    List (List Char × List Char) :=
  (splitLines content).foldl
    (fun out line =>
      let l := trimSpace line
      if l = [] then out
      else if '=' ∈ l then
        updateAssoc out (l.takeWhile (fun c => c != '=')) ((l.dropWhile (fun c => c != '=')).tail)
      else updateAssoc out l (osEnv l))
    []

/-- Go `strconv.Atoi` digit loop: `none` unless the list is a non-empty
run of decimal digits. -/
def digitsVal (l : List Char) : Option Nat :=
  if l = [] then none
  else
    l.foldl
      (fun acc c =>
        match acc with
        | none => none
        | some n => if c.isDigit then some (n * 10 + (c.toNat - 48)) else none)
      (some 0)

/-- Go `strconv.Atoi`: optional sign followed by digits. -/
def atoi (s : List Char) : Option Int :=
  match s with
  | '+' :: rest => (digitsVal rest).map Int.ofNat
  | '-' :: rest => (digitsVal rest).map (fun n => -(Int.ofNat n))
  | _ => (digitsVal s).map Int.ofNat

/-- The env-scanning loop of `BuildConfig.packUidGid`: for each `K=V`
entry of the builder image's config env, record the value under
`PACK_USER_ID` into the first slot and under `PACK_GROUP_ID` into the
second; entries without `=` are skipped. -/
def scanPackEnv (env : List (List Char)) : List Char × List Char :=
  env.foldl
    (fun acc kv =>
      match splitFirst '=' kv with
      | some p =>
        if p.1 = "PACK_USER_ID".data then (p.2, acc.2)
        else if p.1 = "PACK_GROUP_ID".data then (acc.1, p.2)
        else acc
      | none => acc)
    ([], [])

/-- `BuildConfig.packUidGid` of `build.go`: scan the builder env for
`PACK_USER_ID` / `PACK_GROUP_ID`, fail when either is empty, then
`strconv.Atoi` both values. -/
def packUidGid (env : List (List Char)) : Except String (Int × Int) :=
  let p := scanPackEnv env
  if p.1 = [] ∨ p.2 = [] then Except.error "not found pack uid & gid"
  else
    match atoi p.1 with
    | none => Except.error ("parsing pack uid: " ++ String.mk p.1)
    | some uid =>
      match atoi p.2 with
      | none => Except.error ("parsing pack gid: " ++ String.mk p.2)
      | some gid => Except.ok (uid, gid)

/-- `style.Symbol`, modelled from the spec: the expected error text in
the specification's scenario 3 shows each interpolated value wrapped in
double quotes (the `style` package itself is not among the provided
sources). -/
def styleSymbol (s : String) : String := "\"" ++ s ++ "\""

/-- The stack-id label key. -/
def stackIdLabel : String := "io.buildpacks.stack.id"

/-- The label-validation fragment of `BuildFactory.BuildConfigFromFlags`
(build.go): read `io.buildpacks.stack.id` from the builder image, fail
when absent or empty, read it from the run image, fail when absent or
empty, and fail with the `invalid stack: …` message when the two values
differ. -/
def validateStackMatch (builderName : String) (builderImg : LocalImage)
    (runName : String) (runImg : LocalImage) : Except String Unit :=
  match Label builderImg stackIdLabel with
  | Except.error e =>
    Except.error ("invalid builder image " ++ styleSymbol builderName ++ ": " ++ e)
  | Except.ok builderStackID =>
    if builderStackID = "" then
      Except.error ("invalid builder image " ++ styleSymbol builderName ++
        ": missing required label " ++ styleSymbol stackIdLabel)
    else
      match Label runImg stackIdLabel with
      | Except.error e =>
        Except.error ("invalid run image " ++ styleSymbol runName ++ ": " ++ e)
      | Except.ok runStackID =>
        if runStackID = "" then
          Except.error ("invalid run image " ++ styleSymbol runName ++
            ": missing required label " ++ styleSymbol stackIdLabel)
        else if builderStackID ≠ runStackID then
          Except.error ("invalid stack: stack " ++ styleSymbol runStackID ++
            " from run image " ++ styleSymbol runName ++ " does not match stack " ++
            styleSymbol builderStackID ++ " from builder image " ++ styleSymbol builderName)
        else Except.ok ()

/-- The loop body of `config.ImageByRegistry`: first image whose parsed
registry (`regOf`, `none` on a parse error, which the loop skips)
equals the wanted registry. -/
def firstByRegistry (regOf : String → Option String) (registry : String) :
    List String → Option String
  | [] => none
  | i :: rest =>
    if regOf i = some registry then some i else firstByRegistry regOf registry rest

/-- `config.ImageByRegistry`: error on an empty list; otherwise the
first image whose registry matches, falling back to the first entry. -/
def ImageByRegistry (regOf : String → Option String) (registry : String) :
    List String → Except String String
  | [] => Except.error "empty images"
  | i :: rest =>
    match firstByRegistry regOf registry (i :: rest) with
    | some found => Except.ok found
    | none => Except.ok i

/-- The old-base pivot of `local.Rebase`, modelled from the spec
(the `subImage` type and `mutate.Rebase` are not among the provided
sources): split the target layer list at the first occurrence of the
old base's top layer, returning (old base layers, app layers); `none`
when the top layer is absent. -/
def splitAtTop : List String → String → Option (List String × List String)
  | [], _ => none
  | l :: ls, top =>
    if l = top then some ([l], ls)
    else
      match splitAtTop ls top with
      | some p => some (l :: p.1, p.2)
      | none => none

/-- `local.Rebase`, modelled from the spec at the diff-id level: on
success the resulting root-fs diff-id list is the new base's list
followed by the target's layers strictly above the old base's top
layer; `none` when the old top layer is not found. -/
def Rebase (targetLayers : List String) (oldTop : String)
    (newBaseLayers : List String) : Option (List String) :=
  match splitAtTop targetLayers oldTop with
  | some p => some (newBaseLayers ++ p.2)
  | none => none

/-- `img.Append` at the layer-list level: one layer appended on top. -/
def appendLayer (layers : List String) (layer : String) : List String :=
  layers ++ [layer]

/-- `BuilderFactory.Create` (create_builder.go) at the layer-list
level: append the `order.toml` layer to the base image, then append one
layer per buildpack, in order. -/
def CreateBuilder (base : List String) (orderTar : String)
    (buildpackTars : List String) : List String :=
  buildpackTars.foldl appendLayer (appendLayer base orderTar)

lemma lookupD_eq_default {α β : Type} [DecidableEq α]
    (labels : List (α × β)) (k : α) (d : β)
    (h : ∀ p ∈ labels, p.1 ≠ k) : lookupD labels k d = d := by
  induction labels with
  | nil => rfl
  | cons p rest ih =>
    obtain ⟨k0, v0⟩ := p
    have hk0 : k0 ≠ k := h (k0, v0) (List.mem_cons_self _ _)
    simp only [lookupD, if_neg hk0]
    exact ih (fun q hq => h q (List.mem_cons_of_mem _ hq))

lemma lookupD_updateAssoc_ne {α β : Type} [DecidableEq α]
    (labels : List (α × β)) (k : α) (v : β) (k2 : α) (d : β)
    (h : k2 ≠ k) : lookupD (updateAssoc labels k v) k2 d = lookupD labels k2 d := by
  induction labels with
  | nil =>
    have hk : k ≠ k2 := fun hc => h hc.symm
    simp [updateAssoc, lookupD, if_neg hk]
  | cons p rest ih =>
    obtain ⟨k0, v0⟩ := p
    by_cases h0 : k0 = k
    · have h02 : k0 ≠ k2 := fun hc2 => h (hc2.symm.trans h0)
      simp [updateAssoc, if_pos h0, lookupD, if_neg h02]
    · by_cases h02 : k0 = k2
      · simp [updateAssoc, if_neg h0, lookupD, if_pos h02]
      · simp [updateAssoc, if_neg h0, lookupD, if_neg h02, ih]

/-- C6: every image handle satisfies `len(layer_paths) ==
len(inspect.root_fs.layers)` after construction and after every
mutation: `NewLocal` initialises `layerPaths` with one entry per
inspected layer, and `AddLayer` appends exactly one entry to each
list, preserving the invariant. -/
theorem new_local_add_layer_invariant :
    (∀ r i, layerInvariant (NewLocal r i)) ∧
    (∀ l p s, (AddLayer l p s).Inspect.layers.length = l.Inspect.layers.length + 1 ∧
      (AddLayer l p s).layerPaths.length = l.layerPaths.length + 1) ∧
    (∀ l p s, layerInvariant l → layerInvariant (AddLayer l p s)) := by
  refine ⟨fun r i => ?_, fun l p s => ⟨?_, ?_⟩, fun l p s h => ?_⟩
  · simp [layerInvariant, NewLocal]
  · simp [AddLayer]
  · simp [AddLayer]
  · simp only [layerInvariant, AddLayer, List.length_append, List.length_cons,
      List.length_nil] at h ⊢
    omega

theorem new_local_add_layer_invariant_witness :
    layerInvariant (NewLocal "some/app" none) ∧
    layerInvariant (AddLayer (NewLocal "some/app" none) "/tmp/layer.tar" "abc") :=
  ⟨new_local_add_layer_invariant.1 "some/app" none,
   new_local_add_layer_invariant.2.2 (NewLocal "some/app" none) "/tmp/layer.tar" "abc"
     (new_local_add_layer_invariant.1 "some/app" none)⟩

/-- C7: `Label` returns an error exactly when the inspect config is
absent (the image does not exist); when the image exists and the key is
not among its labels it returns the empty string without an error. -/
theorem label_error_iff_image_absent :
    ∀ (l : LocalImage) (key : String),
      ((∃ e, Label l key = Except.error e) ↔ l.Inspect.config = none) ∧
      (∀ labels, l.Inspect.config = some labels →
        (∀ p ∈ labels, p.1 ≠ key) → Label l key = Except.ok "") := by
  intro l key
  constructor
  · constructor
    · rintro ⟨e, he⟩
      cases h : l.Inspect.config with
      | none => rfl
      | some labels => simp [Label, h] at he
    · intro h
      refine ⟨"failed to get label, image " ++ quoteStr ++ l.RepoName ++ quoteStr ++
        " does not exist", ?_⟩
      simp [Label, h]
  · intro labels h hmem
    simp [Label, h, lookupD_eq_default labels key "" hmem]

theorem label_error_iff_image_absent_witness :
    Label { RepoName := "some/app"
          , Inspect := { config := some [("a", "b")], layers := [] }
          , layerPaths := [] } "missing.key" = Except.ok "" :=
  (label_error_iff_image_absent
    { RepoName := "some/app"
    , Inspect := { config := some [("a", "b")], layers := [] }
    , layerPaths := [] } "missing.key").2 [("a", "b")] rfl (by decide)

/-- C9: for an existing image handle, `SetLabel` only updates the
in-memory label map: the repo name, the root-fs layer list, the
`layerPaths` list, and the looked-up value of every other label key are
unchanged (the model is a pure state transformation; nothing reaches a
daemon or registry before `Save`). -/
theorem set_label_frame :
    ∀ (l : LocalImage) (key val : String) (l2 : LocalImage),
      SetLabel l key val = Except.ok l2 →
      l2.RepoName = l.RepoName ∧
      l2.Inspect.layers = l.Inspect.layers ∧
      l2.layerPaths = l.layerPaths ∧
      ∀ labels, l.Inspect.config = some labels →
        l2.Inspect.config = some (updateAssoc labels key val) ∧
        ∀ k2, k2 ≠ key →
          lookupD (updateAssoc labels key val) k2 "" = lookupD labels k2 "" := by
  intro l key val l2 h
  cases hc : l.Inspect.config with
  | none => simp [SetLabel, hc] at h
  | some labels0 =>
    simp only [SetLabel, hc, Except.ok.injEq] at h
    subst h
    refine ⟨rfl, rfl, rfl, fun labels hl => ?_⟩
    have heq : labels0 = labels := Option.some.inj hl
    subst heq
    exact ⟨rfl, fun k2 hk2 => lookupD_updateAssoc_ne labels0 key val k2 "" hk2⟩

theorem set_label_frame_witness :
    ∃ l2, SetLabel { RepoName := "some/app"
                   , Inspect := { config := some [("k", "old"), ("other", "v")]
                                , layers := ["l1"] }
                   , layerPaths := [""] } "k" "new" = Except.ok l2 ∧
      l2.RepoName = "some/app" ∧ l2.Inspect.layers = ["l1"] ∧ l2.layerPaths = [""] ∧
      lookupD (updateAssoc [("k", "old"), ("other", "v")] "k" "new") "other" "" =
        lookupD [("k", "old"), ("other", "v")] "other" "" := by
  refine ⟨_, rfl, ?_⟩
  have h := set_label_frame
    { RepoName := "some/app"
    , Inspect := { config := some [("k", "old"), ("other", "v")], layers := ["l1"] }
    , layerPaths := [""] } "k" "new" _ rfl
  exact ⟨h.1, h.2.1, h.2.2.1,
    (h.2.2.2 [("k", "old"), ("other", "v")] rfl).2 "other" (by decide)⟩

/-- C10: `TopLayer` returns a value exactly when the inspected layer
list is non-empty; on a handle created for a missing image (empty layer
list) the read of position len-1 is out of range instead of a clean
error, so non-emptiness is a genuine precondition. -/
theorem top_layer_requires_nonempty :
    (∀ l : LocalImage, (TopLayer l).isSome ↔ l.Inspect.layers ≠ []) ∧
    (∀ r, TopLayer (NewLocal r none) = none) := by
  constructor
  · intro l
    unfold TopLayer
    cases h : l.Inspect.layers with
    | nil => simp [h]
    | cons a as => simp [h, List.get?_eq_get, Nat.lt_succ_iff]
  · intro r
    rfl

theorem top_layer_requires_nonempty_witness :
    (TopLayer (NewLocal "missing/image" none)).isSome ↔
      (NewLocal "missing/image" none).Inspect.layers ≠ [] :=
  top_layer_requires_nonempty.1 (NewLocal "missing/image" none)

/-- C4: the code has no `PACK_USER_GID` fallback. With a builder env
carrying `PACK_USER_ID=1234` and `PACK_USER_GID=5678` but no
`PACK_GROUP_ID`, `packUidGid` fails with `not found pack uid & gid`,
while the repository's own test ("falls back to PACK_USER_GID sets
owner of layer files") and the specification expect uid 1234, gid 5678. -/
theorem pack_uid_gid_missing_user_gid_fallback :
    packUidGid ["PACK_USER_ID=1234".data, "PACK_USER_GID=5678".data] =
      Except.error "not found pack uid & gid" := by
  rfl

lemma foldl_appendLayer (bps : List String) :
    ∀ acc : List String, bps.foldl appendLayer acc = acc ++ bps := by
  induction bps with
  | nil => intro acc; simp
  | cons b rest ih =>
    intro acc
    simp only [List.foldl_cons, ih, appendLayer]
    simp

/-- C5 counterexample: the claim says the layers are appended one per
buildpack first and the `order.toml` layer last, i.e. with base `[]`,
one buildpack layer `"bp.tar"` and order layer `"order.tar"` the result
would be `["bp.tar", "order.tar"]`; the code produces
`["order.tar", "bp.tar"]`. -/
theorem create_builder_order_last_counterexample :
    CreateBuilder [] "order.tar" ["bp.tar"] ≠ ["bp.tar", "order.tar"] ∧
    CreateBuilder [] "order.tar" ["bp.tar"] = ["order.tar", "bp.tar"] := by
  constructor
  · decide
  · rfl

/-- C5 amended: when creating a builder image the `order.toml` layer is
appended first, directly on the base image, and then one layer per
buildpack in their configured order — so the order layer is the
bottom-most appended layer, not the topmost. -/
theorem create_builder_appends_order_first :
    ∀ base orderTar bps, CreateBuilder base orderTar bps = base ++ orderTar :: bps := by
  intro base orderTar bps
  unfold CreateBuilder
  rw [foldl_appendLayer]
  simp [appendLayer]

lemma splitAtTop_spec (top : String) :
    ∀ (target oldBase app : List String),
      splitAtTop target top = some (oldBase, app) →
      target = oldBase ++ app ∧ oldBase.getLast? = some top ∧
        ∀ x ∈ oldBase.dropLast, x ≠ top := by
  intro target
  induction target with
  | nil => intro oldBase app h; simp [splitAtTop] at h
  | cons l ls ih =>
    intro oldBase app h
    by_cases hl : l = top
    · simp only [splitAtTop, if_pos hl, Option.some.injEq, Prod.mk.injEq] at h
      obtain ⟨hb, ha⟩ := h
      subst hb; subst ha
      exact ⟨rfl, by simp [hl], by simp⟩
    · simp only [splitAtTop, if_neg hl] at h
      cases hs : splitAtTop ls top with
      | none => rw [hs] at h; simp at h
      | some p =>
        rw [hs] at h
        simp only [Option.some.injEq, Prod.mk.injEq] at h
        obtain ⟨hb, ha⟩ := h
        obtain ⟨base1, app1⟩ := p
        obtain ⟨ht, hlast, hmem⟩ := ih base1 app1 hs
        subst hb; subst ha; subst ht
        obtain ⟨b, bs⟩ : ∃ b bs, base1 = b :: bs := by
          cases base1 with
          | nil => simp at hlast
          | cons b bs => exact ⟨b, bs, rfl⟩
        obtain ⟨bs', hbase⟩ := bs
        subst hbase
        refine ⟨rfl, by simpa using hlast, ?_⟩
        intro x hx
        rw [List.dropLast_cons_of_ne_nil (by simp)] at hx
        rcases List.mem_cons.mp hx with hxl | hxd
        · subst hxl; exact hl
        · exact hmem x hxd

/-- C1: after a successful `Rebase(old_top, new_base)` the resulting
root-fs diff-id list is the new base's diff-id list concatenated with
the target's diff-ids strictly above `old_top` (the suffix after the
prefix ending at the first occurrence of `old_top`), and the count of
app layers above `old_top` is preserved. -/
theorem rebase_diff_ids :
    ∀ (target : List String) (oldTop : String) (newBase res : List String),
      Rebase target oldTop newBase = some res →
      ∃ oldBase app,
        target = oldBase ++ app ∧
        oldBase.getLast? = some oldTop ∧
        (∀ x ∈ oldBase.dropLast, x ≠ oldTop) ∧
        app = target.drop oldBase.length ∧
        res = newBase ++ app ∧
        res.length = newBase.length + app.length := by
  intro target oldTop newBase res h
  unfold Rebase at h
  cases hs : splitAtTop target oldTop with
  | none => rw [hs] at h; simp at h
  | some p =>
    rw [hs] at h
    simp only [Option.some.injEq] at h
    obtain ⟨oldBase, app⟩ := p
    obtain ⟨ht, hlast, hmem⟩ := splitAtTop_spec oldTop target oldBase app hs
    refine ⟨oldBase, app, ht, hlast, hmem, ?_, h.symm, by simp [← h]⟩
    rw [ht, List.drop_left]

theorem rebase_diff_ids_witness :
    ∃ oldBase app,
      (["a", "b", "c", "d"] : List String) = oldBase ++ app ∧
      oldBase.getLast? = some "b" ∧
      (∀ x ∈ oldBase.dropLast, x ≠ "b") ∧
      app = (["a", "b", "c", "d"] : List String).drop oldBase.length ∧
      (["x", "y", "c", "d"] : List String) = ["x", "y"] ++ app ∧
      (["x", "y", "c", "d"] : List String).length = (["x", "y"] : List String).length + app.length :=
  rebase_diff_ids ["a", "b", "c", "d"] "b" ["x", "y"] ["x", "y", "c", "d"] rfl

lemma firstByRegistry_eq_none (regOf : String → Option String) (registry : String) :
    ∀ l : List String, (∀ i ∈ l, regOf i ≠ some registry) →
      firstByRegistry regOf registry l = none := by
  intro l
  induction l with
  | nil => intro _; rfl
  | cons i rest ih =>
    intro h
    have hi : regOf i ≠ some registry := h i (List.mem_cons_self _ _)
    simp only [firstByRegistry, if_neg hi]
    exact ih (fun j hj => h j (List.mem_cons_of_mem _ hj))

lemma firstByRegistry_first_match (regOf : String → Option String) (registry : String) :
    ∀ (pre : List String) (i : String) (post : List String),
      (∀ j ∈ pre, regOf j ≠ some registry) → regOf i = some registry →
      firstByRegistry regOf registry (pre ++ i :: post) = some i := by
  intro pre
  induction pre with
  | nil =>
    intro i post _ hi
    simp [firstByRegistry, hi]
  | cons j rest ih =>
    intro i post h hi
    have hj : regOf j ≠ some registry := h j (List.mem_cons_self _ _)
    simp only [List.cons_append, firstByRegistry, if_neg hj]
    exact ih i post (fun j2 hj2 => h j2 (List.mem_cons_of_mem _ hj2)) hi

/-- C3: with no --run-image flag, the run image is taken from the
stack's run-images list as the first entry whose registry (as parsed by
`regOf`) equals the target repo's registry; when no entry matches, the
first entry of the list is selected. -/
theorem run_image_selection :
    ∀ (regOf : String → Option String) (registry head : String) (rest : List String),
      ((∀ i ∈ head :: rest, regOf i ≠ some registry) →
        ImageByRegistry regOf registry (head :: rest) = Except.ok head) ∧
      (∀ pre i post, head :: rest = pre ++ i :: post →
        (∀ j ∈ pre, regOf j ≠ some registry) → regOf i = some registry →
        ImageByRegistry regOf registry (head :: rest) = Except.ok i) := by
  intro regOf registry head rest
  constructor
  · intro h
    have hn := firstByRegistry_eq_none regOf registry (head :: rest) h
    simp [ImageByRegistry, hn]
  · intro pre i post heq hpre hi
    have hs : firstByRegistry regOf registry (head :: rest) = some i := by
      rw [heq]
      exact firstByRegistry_first_match regOf registry pre i post hpre hi
    simp [ImageByRegistry, hs]

theorem run_image_selection_witness :
    ImageByRegistry (fun s => some (String.mk (s.data.takeWhile (fun c => c != '/'))))
      "registry.com" ["some/run", "registry.com/some/run"] =
      Except.ok "registry.com/some/run" :=
  (run_image_selection (fun s => some (String.mk (s.data.takeWhile (fun c => c != '/'))))
    "registry.com" "some/run" ["registry.com/some/run"]).2
    ["some/run"] "registry.com/some/run" [] rfl (by decide) (by decide)

/-- C2: when builder and run image both carry a non-empty
`io.buildpacks.stack.id` label, `BuildConfigFromFlags` fails with the
exact `invalid stack: …` message precisely when the two label values
differ, and this check succeeds when they are equal. -/
theorem stack_mismatch_check :
    ∀ (builderName runName : String) (builderImg runImg : LocalImage) (sb sr : String),
      Label builderImg stackIdLabel = Except.ok sb → sb ≠ "" →
      Label runImg stackIdLabel = Except.ok sr → sr ≠ "" →
      (sb ≠ sr →
        validateStackMatch builderName builderImg runName runImg =
          Except.error ("invalid stack: stack " ++ styleSymbol sr ++ " from run image " ++
            styleSymbol runName ++ " does not match stack " ++ styleSymbol sb ++
            " from builder image " ++ styleSymbol builderName)) ∧
      (sb = sr →
        validateStackMatch builderName builderImg runName runImg = Except.ok ()) := by
  intro builderName runName builderImg runImg sb sr hb hsb hr hsr
  constructor
  · intro hne
    simp [validateStackMatch, hb, hr, hsb, hsr, hne]
  · intro heq
    simp [validateStackMatch, hb, hr, hsb, hsr, heq]

theorem stack_mismatch_check_witness :
    validateStackMatch "some/builder"
      { RepoName := "some/builder"
      , Inspect := { config := some [(stackIdLabel, "some.stack.id")], layers := [] }
      , layerPaths := [] }
      "override/run"
      { RepoName := "override/run"
      , Inspect := { config := some [(stackIdLabel, "other.stack.id")], layers := [] }
      , layerPaths := [] } =
      Except.error "invalid stack: stack \"other.stack.id\" from run image \"override/run\" does not match stack \"some.stack.id\" from builder image \"some/builder\"" :=
  (stack_mismatch_check "some/builder" "override/run"
    { RepoName := "some/builder"
    , Inspect := { config := some [(stackIdLabel, "some.stack.id")], layers := [] }
    , layerPaths := [] }
    { RepoName := "override/run"
    , Inspect := { config := some [(stackIdLabel, "other.stack.id")], layers := [] }
    , layerPaths := [] }
    "some.stack.id" "other.stack.id" rfl (by decide) rfl (by decide)).1 (by decide)

lemma splitFirst_eq_none_iff (sep : Char) :
    ∀ l : List Char, splitFirst sep l = none ↔ sep ∉ l := by
  intro l
  induction l with
  | nil => simp [splitFirst]
  | cons c cs ih =>
    by_cases hc : c = sep
    · subst hc
      simp [splitFirst]
    · simp only [splitFirst, if_neg hc]
      cases hs : splitFirst sep cs with
      | none =>
        have hmem : sep ∉ cs := ih.mp hs
        constructor
        · intro _ hin
          rcases List.mem_cons.mp hin with h1 | h2
          · exact hc h1.symm
          · exact hmem h2
        · intro _
          rfl
      | some p =>
        constructor
        · intro h
          exact Option.noConfusion h
        · intro hnin
          exfalso
          have hmem : sep ∉ cs := fun hin => hnin (List.mem_cons_of_mem _ hin)
          rw [ih.mpr hmem] at hs
          exact Option.noConfusion hs

lemma splitFirst_of_mem (sep : Char) :
    ∀ l : List Char, sep ∈ l →
      splitFirst sep l =
        some (l.takeWhile (fun c => c != sep), (l.dropWhile (fun c => c != sep)).tail) := by
  intro l
  induction l with
  | nil => intro h; simp at h
  | cons c cs ih =>
    intro h
    by_cases hc : c = sep
    · subst hc
      simp [splitFirst, List.takeWhile_cons, List.dropWhile_cons]
    · have hmem : sep ∈ cs := by
        rcases List.mem_cons.mp h with h1 | h2
        · exact absurd h1.symm hc
        · exact h2
      have hb : (c != sep) = true := by
        simp [bne_iff_ne]; exact hc
      simp only [splitFirst, if_neg hc, ih hmem, List.takeWhile_cons, List.dropWhile_cons, hb,
        if_true]

/-- C8: `parseEnvFile` computes exactly the map the specification
describes: each non-empty trimmed KEY=VALUE line maps KEY to VALUE,
each non-empty line without an equals sign maps the key to its process
environment value, and empty lines contribute nothing. -/
theorem parse_env_file_matches_spec :
    ∀ (osEnv : List Char → List Char) (content : List Char),
      parseEnvFile osEnv content = envFileMapSpec osEnv content := by
  intro osEnv content
  unfold parseEnvFile envFileMapSpec
  apply List.foldl_ext
  intro acc line _
  by_cases h0 : trimSpace line = []
  · simp [h0]
  · by_cases hm : '=' ∈ trimSpace line
    · simp [h0, splitFirst_of_mem '=' (trimSpace line) hm, hm]
    · have hn : splitFirst '=' (trimSpace line) = none := (splitFirst_eq_none_iff _ _).mpr hm
      simp [h0, hn, hm]
